import Mathlib

/-!
Shallow embedding of the statement executor of the ion shell
(src/src/lib/shell/flow.rs) together with proofs about the properties the
repository's specification claims for it.

The executor is a recursive tree walker over `Statement` values that mutates
a `ShellState` (previous status, scoped variable store, signal queue,
break-flow latch) and returns a four-valued `Condition`.  External
collaborators of the executor (parser, pipeline runner, expander, assignment
routines, signal handler decisions, the wall clock) live behind an `Env` of
oracle functions, following the interfaces of section 6 of the
specification.  Recursion in the Rust source is unbounded (while loops,
guards re-entering the command entry), so every executor function takes a
fuel argument and returns `Res.oof` when the fuel runs out; theorems are
stated about executions that complete.

A ghost `trace` field records scope pushes and pops and every variable-store
write together with its call site, so that claims about call counts
("pushes equal pops", "the for-loop binding never writes the name `_`")
become statements about the trace.
-/

/-- Condition, the four-valued non-local control signal of flow.rs. -/
inductive Condition
  | Continue
  | Break
  | NoOp
  | SigInt
deriving DecidableEq, Repr

/-- Opaque token for a pipeline specification; the executor only hands it to
the external pipeline runner. -/
structure Pipeline where
  id : Nat
deriving DecidableEq, Repr

mutual

/-- Statement, the AST node type of flow.rs.  Payloads of external origin
(assignment actions) are opaque tokens; the catch-all `other` stands for the
source's final wildcard arm which does nothing. -/
inductive Statement
  | Error (number : Int)
  | Let (action : Nat)
  | Export (action : Nat)
  | While (expression : Pipeline) (statements : List Statement)
  | For (var : String) (values : List String) (statements : List Statement)
  | If (expression : Statement) (success : List Statement)
      (else_if : List ElseIf) (failure : List Statement)
  | Function (name : String) (args : List String)
      (statements : List Statement) (description : Option String)
  | Pipe (pipeline : Pipeline)
  | Time (inner : Statement)
  | And (inner : Statement)
  | Or (inner : Statement)
  | Not (inner : Statement)
  | Break
  | Continue
  | Match (expression : String) (cases : List Case)
  | other

/-- One arm of a match statement, mirroring flow_control::Case: optional raw
pattern string, optional binding name, optional guard command, body. -/
inductive Case
  | mk (value : Option String) (binding : Option String)
      (conditional : Option String) (statements : List Statement)

/-- One else-if arm of an if statement, mirroring flow_control::ElseIf. -/
inductive ElseIf
  | mk (expression : Statement) (success : List Statement)

end

def Case.value : Case → Option String
  | .mk v _ _ _ => v

def Case.binding : Case → Option String
  | .mk _ b _ _ => b

def Case.conditional : Case → Option String
  | .mk _ _ c _ => c

def Case.statements : Case → List Statement
  | .mk _ _ _ s => s

def ElseIf.expression : ElseIf → Statement
  | .mk e _ => e

def ElseIf.success : ElseIf → List Statement
  | .mk _ s => s

/-- Values held by the variable store, mirroring variables::VariableType as
far as flow.rs touches it. -/
inductive VariableType
  | str (s : String)
  | array (a : List String)
  | hashMap (m : List (String × String))
  | function (description : Option String) (name : String)
      (args : List String) (statements : List Statement)

/-- Call site of a variable-store write, used to tag trace events. -/
inductive SetSite
  | forLoop
  | matchBind
  | matchRestore
  | statusVar
  | funcDef
deriving DecidableEq, Repr

/-- Ghost trace events: scope pushes and pops of the variable store and
every store write with its call site. -/
inductive Event
  | scopePush
  | scopePop
  | setVar (site : SetSite) (name : String)
deriving DecidableEq, Repr

/-- One scope frame of the variable store: an association list from names to
values, newest entry first. -/
def Frame := List (String × VariableType)

/-- The shell state mutated by the executor: previous status, errexit flag
bitset, break-flow latch, scoped variable store (head frame is the top
scope), queue of pending signals, a counter of pipeline-runner invocations,
the lines written to standard output (newest first), and the ghost trace
(newest event first). -/
structure ShellState where
  previous_status : Int
  flags : Nat
  break_flow : Bool
  vars : List Frame
  pendingSignals : List Int
  pipelineCount : Nat
  stdout : List String
  trace : List Event

/-- Result of running an executor function: a normal return with a condition
and the new state, a process exit (the source's self.exit, which never
returns), or fuel exhaustion. -/
inductive Res
  | ok (c : Condition) (s : ShellState)
  | exit (code : Int) (s : ShellState)
  | oof

/-- The normalized shape of a for-loop's values, mirroring
parser::ForExpression: an explicit list, a line-delimited string, or a
half-open integer range. -/
inductive ForExpr
  | Multiple (values : List String)
  | Normal (values : String)
  | Range (start stop : Int)

/-- Oracles for the executor's external collaborators, following the
interfaces in section 6 of the specification: the parser plus flow builder
(a command string becomes a list of complete statements, or none on a parse
error), the pipeline runner (returns its Option result and the new previous
status; by its contract it mutates only the last status), the assignment
routines of Let and Export (returning the integer status), the expander,
the signal-handler decision and signal codes, and the wall clock read by
Time (seconds and subsecond nanoseconds). -/
structure Env where
  parseCommand : String → Option (List Statement)
  runPipeline : Pipeline → ShellState → Option Int × Int
  localAssign : Nat → ShellState → Int
  exportAssign : Nat → ShellState → Int
  expandString : String → ShellState → List String
  is_array : String → Bool
  forExpression : List String → ShellState → ForExpr
  handleSignal : Int → Bool
  signalCode : Int → Int
  elapsed : ShellState → Nat × Nat

/-- status::SUCCESS.  Modelled from the spec: status.rs is not under src/;
section 6 of the specification fixes exit code 0 as success. -/
def SUCCESS : Int := 0

/-- status::FAILURE.  Modelled from the spec: status.rs is not under src/;
section 6 of the specification fixes exit code 1 as generic failure. -/
def FAILURE : Int := 1

/-- flags::ERR_EXIT bit.  Modelled from the spec: flags.rs is not under
src/; the spec only requires an errexit bit in the flag bitset. -/
def ERR_EXIT : Nat := 1

/-- Write a name in one frame, replacing an existing entry or prepending. -/
def setFrame (name : String) (v : VariableType) : Frame → Frame
  | [] => [(name, v)]
  | (n, w) :: rest =>
      if n = name then (n, v) :: rest else (n, w) :: setFrame name v rest

/-- VariableStore::set.  Modelled from the spec: the variable store lives
outside src/; sections 5 and 6 specify that local assignments mutate only
the top scope while lookups walk outward (inner definitions shadow). -/
def setTop (name : String) (v : VariableType) : List Frame → List Frame
  | [] => []
  | f :: rest => setFrame name v f :: rest

/-- Look a name up in one frame. -/
def lookupFrame (name : String) : Frame → Option VariableType
  | [] => none
  | (n, w) :: rest => if n = name then some w else lookupFrame name rest

/-- VariableStore lookup: walk the scope stack outward.  Modelled from the
spec, like setTop. -/
def lookupVar (name : String) : List Frame → Option VariableType
  | [] => none
  | f :: rest =>
      match lookupFrame name f with
      | some v => some v
      | none => lookupVar name rest

/-- variables.get::<types::Str>: the stored value if it is a scalar. -/
def getStr (name : String) (fs : List Frame) : Option String :=
  match lookupVar name fs with
  | some (.str s) => some s
  | _ => none

/-- variables.get::<types::Array>: the stored value if it is an array. -/
def getArray (name : String) (fs : List Frame) : Option (List String) :=
  match lookupVar name fs with
  | some (.array a) => some a
  | _ => none

/-- Both Shell::set and variables.set as used by flow.rs: write the store
and record the write in the ghost trace.  Modelled from the spec:
Shell::set is not under src/ and the spec gives it no semantics distinct
from the store's own set. -/
def storeSet (site : SetSite) (name : String) (v : VariableType)
    (s : ShellState) : ShellState :=
  { s with
    vars := setTop name v s.vars
    trace := .setVar site name :: s.trace }

/-- variables.new_scope: push a fresh frame and record the push. -/
def newScope (_namespace : Bool) (s : ShellState) : ShellState :=
  { s with
    vars := [] :: s.vars
    trace := .scopePush :: s.trace }

/-- variables.pop_scope: drop the top frame and record the pop. -/
def popScope (s : ShellState) : ShellState :=
  { s with
    vars := s.vars.tail
    trace := .scopePop :: s.trace }

/-- The signal probe at the tail of execute_statement: pop the next pending
signal; a terminal signal exits the process with its signal code, a handled
one yields SigInt; otherwise a set break_flow latch is cleared and yields
SigInt; otherwise NoOp. -/
def signalCheck (env : Env) (s : ShellState) : Res :=
  match s.pendingSignals with
  | sig :: rest =>
      let s₁ := { s with pendingSignals := rest }
      if env.handleSignal sig then .exit (env.signalCode sig) s₁
      else .ok .SigInt s₁
  | [] =>
      if s.break_flow then .ok .SigInt { s with break_flow := false }
      else .ok .NoOp s

/-- Apply the external pipeline runner: bump the invocation counter and
install the status it reports. -/
def applyPipeline (env : Env) (p : Pipeline) (s : ShellState) :
    Option Int × ShellState :=
  let r := env.runPipeline p s
  (r.1, { s with previous_status := r.2, pipelineCount := s.pipelineCount + 1 })

/-- The pattern overlap test of execute_match (the local fn matches): some
element of the expanded pattern equals some element of the subject array. -/
def matchesArr (lhs rhs : List String) : Bool :=
  lhs.any fun v => rhs.contains v

/-- str::lines of the Rust standard library, used by the Normal arm of
execute_for: split on newlines, final terminator optional, a trailing
carriage return of each line stripped. -/
def rustLines (s : String) : List String :=
  let ps := s.splitOn "\n"
  let ps := if ps.getLast? = some "" then ps.dropLast else ps
  ps.map fun l => if l.endsWith "\r" then l.dropRight 1 else l

/-- The list of integers of the half-open Rust range start..stop. -/
def rangeList (start stop : Int) : List Int :=
  (List.range (stop - start).toNat).map fun i => start + i

/-- Zero padding of the Rust format specifiers {:02} and {:09}. -/
def zeroPad (w : Nat) (n : Nat) : String :=
  let s := toString n
  if s.length < w then String.mk (List.replicate (w - s.length) '0') ++ s
  else s

/-- The line the Time arm writes: minutes form strictly above 60 seconds,
plain seconds form otherwise. -/
def timeFormat (seconds : Nat) (nanoseconds : Nat) : String :=
  if 60 < seconds then
    "real    " ++ toString (seconds / 60) ++ "m" ++ zeroPad 2 (seconds % 60)
      ++ "." ++ zeroPad 9 nanoseconds ++ "s"
  else
    "real    " ++ toString seconds ++ "." ++ zeroPad 9 nanoseconds ++ "s"

/-- The save of a binding name's previous value at the head of the on-match
block: the previous scalar, or the previous array for an array subject,
when one of that type exists. -/
def savedBind (case : Case) (isArr : Bool) (s : ShellState) :
    Option VariableType :=
  match case.binding with
  | some bind =>
      if isArr then (getArray bind s.vars).map VariableType.array
      else (getStr bind s.vars).map VariableType.str
  | none => none

/-- The binding write of the on-match block: the subject array as an array,
or space-joined as a scalar. -/
def bindStep (case : Case) (value : List String) (isArr : Bool)
    (s : ShellState) : ShellState :=
  match case.binding with
  | some bind =>
      if isArr then storeSet .matchBind bind (.array value) s
      else storeSet .matchBind bind (.str (" ".intercalate value)) s
  | none => s

/-- The restore at the end of the on-match block: a saved scalar, array or
hash map is written back; other saved kinds (and no save) leave the store
alone. -/
def restoreStep (case : Case) (pb : Option VariableType)
    (s₂ : ShellState) : ShellState :=
  match case.binding with
  | some bind =>
      match pb with
      | some (.str str₀) => storeSet .matchRestore bind (.str str₀) s₂
      | some (.array arr) => storeSet .matchRestore bind (.array arr) s₂
      | some (.hashMap m) => storeSet .matchRestore bind (.hashMap m) s₂
      | _ => s₂
  | none => s₂

/-- The repeated condition dispatch at the end of the If, Time, And, Or and
Match arms of execute_statement: Break, Continue and SigInt return early
(skipping the signal probe), NoOp falls through to the probe. -/
def condTail (env : Env) (r : Res) : Res :=
  match r with
  | .oof => .oof
  | .exit code s₁ => .exit code s₁
  | .ok .Break s₁ => .ok .Break s₁
  | .ok .Continue s₁ => .ok .Continue s₁
  | .ok .SigInt s₁ => .ok .SigInt s₁
  | .ok .NoOp s₁ => signalCheck env s₁

/-- The dispatch at the end of the While and For arms of execute_statement:
only SigInt returns early; everything else falls through to the probe. -/
def sigTail (env : Env) (r : Res) : Res :=
  match r with
  | .oof => .oof
  | .exit code s₁ => .exit code s₁
  | .ok .SigInt s₁ => .ok .SigInt s₁
  | .ok _ s₁ => signalCheck env s₁

set_option maxHeartbeats 1600000 in
mutual

/-- FlowLogic::execute_statement of flow.rs: dispatch on the statement tag;
arms that do not return early fall through to the signal probe. -/
def executeStatement (env : Env) (fuel : Nat) (st : Statement)
    (s : ShellState) : Res :=
  match fuel with
  | 0 => .oof
  | f + 1 =>
    match st with
    | .Error number =>
        signalCheck env { s with previous_status := number }
    | .Let action =>
        let status := env.localAssign action s
        let s₁ := { s with previous_status := status }
        signalCheck env (storeSet .statusVar "?" (.str (toString status)) s₁)
    | .Export action =>
        let status := env.exportAssign action s
        let s₁ := { s with previous_status := status }
        signalCheck env (storeSet .statusVar "?" (.str (toString status)) s₁)
    | .While expression statements =>
        sigTail env (executeWhile env f expression statements s)
    | .For var values statements =>
        sigTail env (executeFor env f var values statements s)
    | .If expression success else_if failure =>
        condTail env (executeIf env f expression success else_if failure s)
    | .Function name args statements description =>
        signalCheck env
          (storeSet .funcDef name (.function description name args statements) s)
    | .Pipe pipeline =>
        let r := applyPipeline env pipeline s
        let s₁ := r.2
        if s₁.flags.land ERR_EXIT ≠ 0 ∧ s₁.previous_status ≠ SUCCESS then
          .exit s₁.previous_status s₁
        else signalCheck env s₁
    | .Time inner =>
        match executeStatement env f inner s with
        | .oof => .oof
        | .exit code s₁ => .exit code s₁
        | .ok condition s₁ =>
            let d := env.elapsed s₁
            condTail env
              (.ok condition { s₁ with stdout := timeFormat d.1 d.2 :: s₁.stdout })
    | .And inner =>
        condTail env
          (if s.previous_status = SUCCESS then executeStatement env f inner s
           else .ok .NoOp s)
    | .Or inner =>
        condTail env
          (if s.previous_status = FAILURE then executeStatement env f inner s
           else .ok .NoOp s)
    | .Not inner =>
        match executeStatement env f inner s with
        | .oof => .oof
        | .exit code s₁ => .exit code s₁
        | .ok _condition s₁ =>
            let status :=
              if s₁.previous_status = FAILURE then SUCCESS
              else if s₁.previous_status = SUCCESS then FAILURE
              else s₁.previous_status
            let s₂ := { s₁ with previous_status := status }
            signalCheck env
              (storeSet .statusVar "?" (.str (toString status)) s₂)
    | .Break => .ok .Break s
    | .Continue => .ok .Continue s
    | .Match expression cases =>
        condTail env (executeMatch env f expression cases s)
    | .other => signalCheck env s
termination_by structural fuel

/-- The statement loop inside execute_statements: run the list in order;
the first non-NoOp condition terminates the list and is returned. -/
def runList (env : Env) (fuel : Nat) (l : List Statement)
    (s : ShellState) : Res :=
  match fuel with
  | 0 => .oof
  | f + 1 =>
    match l with
    | [] => .ok .NoOp s
    | x :: xs =>
        match executeStatement env f x s with
        | .oof => .oof
        | .exit code s₁ => .exit code s₁
        | .ok .NoOp s₁ => runList env f xs s₁
        | .ok c s₁ => .ok c s₁
termination_by structural fuel

/-- FlowLogic::execute_statements: open a fresh (non-namespace) scope, run
the statements, pop the scope, return the remembered condition. -/
def executeStatements (env : Env) (fuel : Nat) (l : List Statement)
    (s : ShellState) : Res :=
  match fuel with
  | 0 => .oof
  | f + 1 =>
    match runList env f l (newScope false s) with
    | .oof => .oof
    | .exit code s₁ => .exit code s₁
    | .ok c s₁ => .ok c (popScope s₁)
termination_by structural fuel

/-- FlowLogic::execute_while: run the (cloned) condition pipeline; while it
reports success, run the (cloned) body; Break stops with NoOp, SigInt
propagates, Continue and NoOp iterate. -/
def executeWhile (env : Env) (fuel : Nat) (expression : Pipeline)
    (statements : List Statement) (s : ShellState) : Res :=
  match fuel with
  | 0 => .oof
  | f + 1 =>
    let r := applyPipeline env expression s
    if r.1 = some SUCCESS then
      match executeStatements env f statements r.2 with
      | .oof => .oof
      | .exit code s₁ => .exit code s₁
      | .ok .Break s₁ => .ok .NoOp s₁
      | .ok .SigInt s₁ => .ok .SigInt s₁
      | .ok _ s₁ => executeWhile env f expression statements s₁
    else .ok .NoOp r.2
termination_by structural fuel

/-- The ignore-variable arms of execute_for (loop variable "_"): iterate the
body once per element without binding anything. -/
def loopIgnore (env : Env) (fuel : Nat) (n : Nat)
    (statements : List Statement) (s : ShellState) : Res :=
  match fuel with
  | 0 => .oof
  | f + 1 =>
    match n with
    | 0 => .ok .NoOp s
    | m + 1 =>
        match executeStatements env f statements s with
        | .oof => .oof
        | .exit code s₁ => .exit code s₁
        | .ok .Break s₁ => .ok .NoOp s₁
        | .ok .SigInt s₁ => .ok .SigInt s₁
        | .ok _ s₁ => loopIgnore env f m statements s₁
termination_by structural fuel

/-- The binding arms of execute_for: bind each element to the loop variable
in the current scope, then run the body. -/
def loopBind (env : Env) (fuel : Nat) (var : String)
    (values : List String) (statements : List Statement)
    (s : ShellState) : Res :=
  match fuel with
  | 0 => .oof
  | f + 1 =>
    match values with
    | [] => .ok .NoOp s
    | v :: vs =>
        let s₀ := storeSet .forLoop var (.str v) s
        match executeStatements env f statements s₀ with
        | .oof => .oof
        | .exit code s₁ => .exit code s₁
        | .ok .Break s₁ => .ok .NoOp s₁
        | .ok .SigInt s₁ => .ok .SigInt s₁
        | .ok _ s₁ => loopBind env f var vs statements s₁
termination_by structural fuel

/-- FlowLogic::execute_for: normalize the raw values through the expander
into a ForExpression, then iterate; a loop variable "_" discards the
elements, otherwise each element (range elements rendered as decimal
strings) is bound before the body runs. -/
def executeFor (env : Env) (fuel : Nat) (var : String)
    (values : List String) (statements : List Statement)
    (s : ShellState) : Res :=
  match fuel with
  | 0 => .oof
  | f + 1 =>
    match env.forExpression values s with
    | .Multiple vs =>
        if var = "_" then loopIgnore env f vs.length statements s
        else loopBind env f var vs statements s
    | .Normal v =>
        if var = "_" then loopIgnore env f (rustLines v).length statements s
        else loopBind env f var (rustLines v) statements s
    | .Range start stop =>
        if var = "_" then
          loopIgnore env f (rangeList start stop).length statements s
        else
          loopBind env f var ((rangeList start stop).map toString)
            statements s
termination_by structural fuel

/-- The chain walked by execute_if: the (condition, success) pairs in order;
a SigInt from a condition block returns immediately, a zero status selects
the success block, otherwise the chain continues and ends in the failure
block. -/
def ifChain (env : Env) (fuel : Nat)
    (pairs : List (Statement × List Statement))
    (failure : List Statement) (s : ShellState) : Res :=
  match fuel with
  | 0 => .oof
  | f + 1 =>
    match pairs with
    | [] => executeStatements env f failure s
    | (condition, statements) :: rest =>
        match executeStatements env f [condition] s with
        | .oof => .oof
        | .exit code s₁ => .exit code s₁
        | .ok c s₁ =>
            if c = .SigInt then .ok .SigInt s₁
            else if s₁.previous_status = 0 then
              executeStatements env f statements s₁
            else ifChain env f rest failure s₁
termination_by structural fuel

/-- FlowLogic::execute_if: chain the first condition with the else-if arms
and fall through to the failure block. -/
def executeIf (env : Env) (fuel : Nat) (expression : Statement)
    (success : List Statement) (else_if : List ElseIf)
    (failure : List Statement) (s : ShellState) : Res :=
  match fuel with
  | 0 => .oof
  | f + 1 =>
    ifChain env f
      ((expression, success) :: else_if.map fun e => (e.expression, e.success))
      failure s
termination_by structural fuel

/-- The case loop of execute_match over the expanded subject array.  A case
with absent patterns always fires when reached; a case with patterns fires
when the expanded pattern overlaps the subject.  A firing case binds the
subject (saving any previous value of the relevant type), runs its guard as
a fresh command (a non-zero status skips to the next case without
restoring), runs its body, restores a saved previous value, and stops the
loop. -/
def matchCases (env : Env) (fuel : Nat) (cases : List Case)
    (value : List String) (isArr : Bool) (s : ShellState) : Res :=
  match fuel with
  | 0 => .oof
  | f + 1 =>
    match cases with
    | [] => .ok .NoOp s
    | case :: rest =>
        match case.value with
        | none => caseMatched env f case rest value isArr s
        | some v =>
            if matchesArr (env.expandString v s) value then
              caseMatched env f case rest value isArr s
            else matchCases env f rest value isArr s
termination_by structural fuel

/-- The on-match block that both arms of the case loop repeat (the source
duplicates it verbatim except that the default arm restores arrays and
hash maps through variables.set where the pattern arm uses Shell::set; the
two writes are modelled identically).  Save any previous value of the
binding name with the type matching the subject, bind the subject, run the
guard as a fresh command (non-zero status continues with the next case,
without restoring), run the body, restore the saved value, stop. -/
def caseMatched (env : Env) (fuel : Nat) (case : Case) (rest : List Case)
    (value : List String) (isArr : Bool) (s : ShellState) : Res :=
  match fuel with
  | 0 => .oof
  | f + 1 =>
    let pb := savedBind case isArr s
    let s₀ := bindStep case value isArr s
    match guardStep env f case s₀ with
    | .oof => .oof
    | .exit code s₁ => .exit code s₁
    | .ok _ s₁ =>
        if case.conditional.isSome ∧ s₁.previous_status ≠ SUCCESS then
          matchCases env f rest value isArr s₁
        else
          match executeStatements env f case.statements s₁ with
          | .oof => .oof
          | .exit code s₂ => .exit code s₂
          | .ok condition s₂ => .ok condition (restoreStep case pb s₂)
termination_by structural fuel

/-- The guard of the on-match block: a present guard command runs as a
fresh top-level command through on_command; an absent guard is a no-op. -/
def guardStep (env : Env) (fuel : Nat) (case : Case) (s : ShellState) : Res :=
  match fuel with
  | 0 => .oof
  | f + 1 =>
    match case.conditional with
    | some statement => onCommand env f statement s
    | none => .ok .NoOp s
termination_by structural fuel

/-- FlowLogic::execute_match: test whether the raw subject is an array,
expand it to the subject array, and walk the cases; NoOp when no case
fires. -/
def executeMatch (env : Env) (fuel : Nat) (expression : String)
    (cases : List Case) (s : ShellState) : Res :=
  match fuel with
  | 0 => .oof
  | f + 1 =>
    matchCases env f cases (env.expandString expression s)
      (env.is_array expression) s
termination_by structural fuel

/-- The statement loop of on_command: each complete statement is executed
and its condition discarded. -/
def onCmdList (env : Env) (fuel : Nat) (l : List Statement)
    (s : ShellState) : Res :=
  match fuel with
  | 0 => .oof
  | f + 1 =>
    match l with
    | [] => .ok .NoOp s
    | x :: xs =>
        match executeStatement env f x s with
        | .oof => .oof
        | .exit code s₁ => .exit code s₁
        | .ok _ s₁ => onCmdList env f xs s₁
termination_by structural fuel

/-- FlowLogic::on_command: clear the break-flow latch, run the input through
the external parser and flow builder, and execute every completed statement;
a parse error stops the input (the diagnostic and builder reset are outside
the state modelled here). -/
def onCommand (env : Env) (fuel : Nat) (command : String)
    (s : ShellState) : Res :=
  match fuel with
  | 0 => .oof
  | f + 1 =>
    let s₀ := { s with break_flow := false }
    match env.parseCommand command with
    | none => .ok .NoOp s₀
    | some stmts => onCmdList env f stmts s₀
termination_by structural fuel

end

/-- Number of occurrences of one event in a trace. -/
def evCnt (e : Event) : List Event → Nat
  | [] => 0
  | x :: t => (if x = e then 1 else 0) + evCnt e t

theorem evCnt_nil (e : Event) : evCnt e [] = 0 := rfl

theorem evCnt_cons (e x : Event) (t : List Event) :
    evCnt e (x :: t) = (if x = e then 1 else 0) + evCnt e t := rfl

/-- The ghost event whose count settles the for-underscore claim: a
for-loop binding write of the name underscore. -/
def underEvent : Event := .setVar .forLoop "_"

/-- Trace and scope-stack discipline of one executor step: scope pushes and
pops grow in lockstep, no for-loop binding write of the name underscore is
added, the scope stack keeps its depth and everything below the top frame
is untouched. -/
def Pres (s s' : ShellState) : Prop :=
  evCnt .scopePush s'.trace + evCnt .scopePop s.trace
      = evCnt .scopePop s'.trace + evCnt .scopePush s.trace ∧
  evCnt underEvent s'.trace = evCnt underEvent s.trace ∧
  s'.vars.length = s.vars.length ∧
  s'.vars.drop 1 = s.vars.drop 1

/-- Strengthening of Pres for the block-shaped executors: the variable
store comes back exactly as it was. -/
def PresF (s s' : ShellState) : Prop :=
  evCnt .scopePush s'.trace + evCnt .scopePop s.trace
      = evCnt .scopePop s'.trace + evCnt .scopePush s.trace ∧
  evCnt underEvent s'.trace = evCnt underEvent s.trace ∧
  s'.vars = s.vars

theorem presF_to_pres {s s' : ShellState} (h : PresF s s') : Pres s s' := by
  obtain ⟨h1, h2, h3⟩ := h
  exact ⟨h1, h2, by rw [h3], by rw [h3]⟩

theorem pres_refl (s : ShellState) : Pres s s :=
  ⟨Nat.add_comm _ _, rfl, rfl, rfl⟩

theorem presF_refl (s : ShellState) : PresF s s :=
  ⟨Nat.add_comm _ _, rfl, rfl⟩

theorem pres_trans {s₁ s₂ s₃ : ShellState}
    (h : Pres s₁ s₂) (h' : Pres s₂ s₃) : Pres s₁ s₃ := by
  obtain ⟨a, b, c, d⟩ := h
  obtain ⟨a', b', c', d'⟩ := h'
  exact ⟨by omega, by omega, by omega, by rw [d', d]⟩

theorem presF_trans {s₁ s₂ s₃ : ShellState}
    (h : PresF s₁ s₂) (h' : PresF s₂ s₃) : PresF s₁ s₃ := by
  obtain ⟨a, b, c⟩ := h
  obtain ⟨a', b', c'⟩ := h'
  exact ⟨by omega, by omega, by rw [c', c]⟩

/-- Record updates that leave trace and variables alone preserve Pres. -/
theorem pres_of_eq {s s' : ShellState}
    (h1 : s'.trace = s.trace) (h2 : s'.vars = s.vars) : Pres s s' :=
  ⟨by rw [h1, Nat.add_comm], by rw [h1], by rw [h2], by rw [h2]⟩

theorem presF_of_eq {s s' : ShellState}
    (h1 : s'.trace = s.trace) (h2 : s'.vars = s.vars) : PresF s s' :=
  ⟨by rw [h1, Nat.add_comm], by rw [h1], h2⟩

theorem setTop_length (n : String) (v : VariableType) (l : List Frame) :
    (setTop n v l).length = l.length := by
  cases l <;> simp [setTop]

theorem setTop_drop_one (n : String) (v : VariableType) (l : List Frame) :
    (setTop n v l).drop 1 = l.drop 1 := by
  cases l <;> simp [setTop]

/-- A store write away from the for-loop-underscore site preserves Pres. -/
theorem pres_storeSet {site : SetSite} {name : String} {v : VariableType}
    {s : ShellState} (h : site ≠ .forLoop ∨ name ≠ "_") :
    Pres s (storeSet site name v s) := by
  have hne : Event.setVar site name ≠ underEvent := by
    intro hEq
    rw [underEvent] at hEq
    injection hEq with hs hn
    cases h with
    | inl h => exact h hs
    | inr h => exact h hn
  refine ⟨?_, ?_, ?_, ?_⟩
  · simp [storeSet, evCnt_cons, Nat.add_comm]
  · simp [storeSet, evCnt_cons, if_neg hne]
  · simp [storeSet, setTop_length]
  · have := setTop_drop_one name v s.vars
    simpa [storeSet, List.drop_one] using this

theorem signalCheck_ok {env : Env} {s : ShellState} {c : Condition}
    {s' : ShellState} (h : signalCheck env s = .ok c s') :
    s'.trace = s.trace ∧ s'.vars = s.vars ∧
    s'.previous_status = s.previous_status ∧ s'.stdout = s.stdout ∧
    s'.pipelineCount = s.pipelineCount := by
  unfold signalCheck at h
  split at h
  · split at h
    · cases h
    · cases h
      exact ⟨rfl, rfl, rfl, rfl, rfl⟩
  · split at h <;> cases h <;> exact ⟨rfl, rfl, rfl, rfl, rfl⟩

theorem presF_signalCheck {env : Env} {s : ShellState} {c : Condition}
    {s' : ShellState} (h : signalCheck env s = .ok c s') : PresF s s' := by
  obtain ⟨h1, h2, _⟩ := signalCheck_ok h
  exact presF_of_eq h1 h2

theorem presF_applyPipeline (env : Env) (p : Pipeline) (s : ShellState) :
    PresF s (applyPipeline env p s).2 := by
  simp [applyPipeline, PresF, Nat.add_comm]

/-- Composition through the condition dispatch condTail. -/
theorem condTail_pres {env : Env} {r : Res} {s : ShellState}
    {c : Condition} {s' : ShellState} (h : condTail env r = .ok c s')
    (hr : ∀ c₁ s₁, r = .ok c₁ s₁ → Pres s s₁) : Pres s s' := by
  match r with
  | .oof => simp [condTail] at h
  | .exit code s₁ => simp [condTail] at h
  | .ok c₁ s₁ =>
      have hp := hr c₁ s₁ rfl
      cases c₁ <;> simp [condTail] at h
      · exact h.2 ▸ hp
      · exact h.2 ▸ hp
      · exact pres_trans hp (presF_to_pres (presF_signalCheck h))
      · exact h.2 ▸ hp

/-- Composition through the SigInt-only dispatch sigTail. -/
theorem sigTail_pres {env : Env} {r : Res} {s : ShellState}
    {c : Condition} {s' : ShellState} (h : sigTail env r = .ok c s')
    (hr : ∀ c₁ s₁, r = .ok c₁ s₁ → Pres s s₁) : Pres s s' := by
  match r with
  | .oof => simp [sigTail] at h
  | .exit code s₁ => simp [sigTail] at h
  | .ok c₁ s₁ =>
      have hp := hr c₁ s₁ rfl
      cases c₁ <;> simp [sigTail] at h
      · exact pres_trans hp (presF_to_pres (presF_signalCheck h))
      · exact pres_trans hp (presF_to_pres (presF_signalCheck h))
      · exact pres_trans hp (presF_to_pres (presF_signalCheck h))
      · exact h.2 ▸ hp

/-- A balanced scope pair around a Pres step yields full preservation. -/
theorem presF_scope {b : Bool} {s s₁ : ShellState}
    (h : Pres (newScope b s) s₁) : PresF s (popScope s₁) := by
  obtain ⟨h1, h2, h3, h4⟩ := h
  simp only [newScope, evCnt_cons] at h1 h2 h3 h4
  refine ⟨?_, ?_, ?_⟩
  · simp only [popScope, evCnt_cons]
    simp only [show (Event.scopePush = Event.scopePop) = False by simp,
      show (Event.scopePop = Event.scopePush) = False by simp,
      show (Event.scopePush = Event.scopePush) = True by simp,
      show (Event.scopePop = Event.scopePop) = True by simp,
      if_true, if_false] at h1 ⊢
    omega
  · simp only [popScope, evCnt_cons]
    simp only [show (Event.scopePop = underEvent) = False by simp [underEvent],
      show (Event.scopePush = underEvent) = False by simp [underEvent],
      if_false] at h2 ⊢
    omega
  · simp only [popScope]
    rw [← List.drop_one, h4]
    simp [newScope]

/-- The binding write of the on-match block preserves the step discipline. -/
theorem pres_bindStep (ca : Case) (v : List String) (a : Bool)
    (s : ShellState) : Pres s (bindStep ca v a s) := by
  rcases ca with ⟨val, binding, cond, stmts⟩
  rcases binding with _ | bind
  · exact pres_refl s
  · cases a
    · exact pres_storeSet (Or.inl fun hh => SetSite.noConfusion hh)
    · exact pres_storeSet (Or.inl fun hh => SetSite.noConfusion hh)

/-- The restore write of the on-match block preserves the step discipline. -/
theorem pres_restoreStep (ca : Case) (pb : Option VariableType)
    (s : ShellState) : Pres s (restoreStep ca pb s) := by
  rcases ca with ⟨val, binding, cond, stmts⟩
  rcases binding with _ | bind
  · exact pres_refl s
  · rcases pb with _ | pv
    · exact pres_refl s
    · rcases pv with s₀ | arr | m | ⟨d, n, ar, st⟩
      · exact pres_storeSet (Or.inl fun hh => SetSite.noConfusion hh)
      · exact pres_storeSet (Or.inl fun hh => SetSite.noConfusion hh)
      · exact pres_storeSet (Or.inl fun hh => SetSite.noConfusion hh)
      · exact pres_refl s


/-- Master step invariant of the executor cluster, by induction on fuel:
every executor function that returns normally balances its scope pushes and
pops, never emits a for-loop binding write of the name underscore, and
keeps the scope stack's depth and its outer frames; the block-shaped
executors restore the variable store exactly. -/
theorem master (fuel : Nat) :
    (∀ env st s c s', executeStatement env fuel st s = .ok c s' → Pres s s') ∧
    (∀ env l s c s', runList env fuel l s = .ok c s' → Pres s s') ∧
    (∀ env l s c s', executeStatements env fuel l s = .ok c s' → PresF s s') ∧
    (∀ env p body s c s', executeWhile env fuel p body s = .ok c s' → PresF s s') ∧
    (∀ env n body s c s', loopIgnore env fuel n body s = .ok c s' → PresF s s') ∧
    (∀ env v vals body s c s', v ≠ "_" →
        loopBind env fuel v vals body s = .ok c s' → Pres s s') ∧
    (∀ env v vals body s c s',
        executeFor env fuel v vals body s = .ok c s' → Pres s s') ∧
    (∀ env pairs failure s c s',
        ifChain env fuel pairs failure s = .ok c s' → PresF s s') ∧
    (∀ env e su ei fa s c s',
        executeIf env fuel e su ei fa s = .ok c s' → PresF s s') ∧
    (∀ env cs v a s c s', matchCases env fuel cs v a s = .ok c s' → Pres s s') ∧
    (∀ env ca rest v a s c s',
        caseMatched env fuel ca rest v a s = .ok c s' → Pres s s') ∧
    (∀ env ca s c s', guardStep env fuel ca s = .ok c s' → Pres s s') ∧
    (∀ env e cs s c s', executeMatch env fuel e cs s = .ok c s' → Pres s s') ∧
    (∀ env l s c s', onCmdList env fuel l s = .ok c s' → Pres s s') ∧
    (∀ env cmd s c s', onCommand env fuel cmd s = .ok c s' → Pres s s') := by
  induction fuel with
  | zero =>
      refine ⟨?_, ?_, ?_, ?_, ?_, ?_, ?_, ?_, ?_, ?_, ?_, ?_, ?_, ?_, ?_⟩ <;>
        intros <;> rename_i h <;>
        simp only [executeStatement, runList, executeStatements, executeWhile,
          loopIgnore, loopBind, executeFor, ifChain, executeIf, matchCases,
          caseMatched, guardStep, executeMatch, onCmdList, onCommand] at h <;>
        exact Res.noConfusion h
  | succ f ih =>
      obtain ⟨ihStmt, ihRun, ihStmts, ihWhile, ihIgn, ihBind, ihFor, ihChain,
        ihIf, ihCases, ihCase, ihGuard, ihMatch, ihCmdL, ihCmd⟩ := ih
      refine ⟨?_, ?_, ?_, ?_, ?_, ?_, ?_, ?_, ?_, ?_, ?_, ?_, ?_, ?_, ?_⟩
      -- executeStatement
      · intro env st s c s' h
        cases st with
        | Error number =>
            simp only [executeStatement] at h
            refine pres_trans ?_ (presF_to_pres (presF_signalCheck h))
            exact pres_of_eq rfl rfl
        | Let action =>
            simp only [executeStatement] at h
            refine pres_trans ?_ (presF_to_pres (presF_signalCheck h))
            refine pres_trans ?_ (pres_storeSet (Or.inl (by decide)))
            exact pres_of_eq rfl rfl
        | Export action =>
            simp only [executeStatement] at h
            refine pres_trans ?_ (presF_to_pres (presF_signalCheck h))
            refine pres_trans ?_ (pres_storeSet (Or.inl (by decide)))
            exact pres_of_eq rfl rfl
        | While e l =>
            simp only [executeStatement] at h
            exact sigTail_pres h fun c₁ s₁ hw =>
              presF_to_pres (ihWhile env e l s c₁ s₁ hw)
        | For v vals l =>
            simp only [executeStatement] at h
            exact sigTail_pres h fun c₁ s₁ hw => ihFor env v vals l s c₁ s₁ hw
        | If e su ei fa =>
            simp only [executeStatement] at h
            exact condTail_pres h fun c₁ s₁ hw =>
              presF_to_pres (ihIf env e su ei fa s c₁ s₁ hw)
        | Function name args stmts descr =>
            simp only [executeStatement] at h
            refine pres_trans ?_ (presF_to_pres (presF_signalCheck h))
            exact pres_storeSet (Or.inl (by decide))
        | Pipe p =>
            simp only [executeStatement] at h
            split at h
            · simp at h
            · refine pres_trans ?_ (presF_to_pres (presF_signalCheck h))
              exact presF_to_pres (presF_applyPipeline env p s)
        | Time inner =>
            simp only [executeStatement] at h
            split at h
            · simp at h
            · simp at h
            · rename_i cond s₁ heq
              refine condTail_pres h ?_
              intro c₁ s₁' hr
              cases hr
              exact pres_trans (ihStmt env inner s cond s₁ heq)
                (pres_of_eq rfl rfl)
        | And inner =>
            simp only [executeStatement] at h
            refine condTail_pres h ?_
            intro c₁ s₁ hr
            split at hr
            · exact ihStmt env inner s c₁ s₁ hr
            · cases hr
              exact pres_refl s
        | Or inner =>
            simp only [executeStatement] at h
            refine condTail_pres h ?_
            intro c₁ s₁ hr
            split at hr
            · exact ihStmt env inner s c₁ s₁ hr
            · cases hr
              exact pres_refl s
        | Not inner =>
            simp only [executeStatement] at h
            split at h
            · simp at h
            · simp at h
            · rename_i cond s₁ heq
              refine pres_trans ?_ (presF_to_pres (presF_signalCheck h))
              refine pres_trans ?_ (pres_storeSet (Or.inl (by decide)))
              refine pres_trans (ihStmt env inner s cond s₁ heq) ?_
              exact pres_of_eq rfl rfl
        | Break =>
            simp only [executeStatement] at h
            cases h
            exact pres_refl s
        | Continue =>
            simp only [executeStatement] at h
            cases h
            exact pres_refl s
        | Match e cs =>
            simp only [executeStatement] at h
            exact condTail_pres h fun c₁ s₁ hw => ihMatch env e cs s c₁ s₁ hw
        | other =>
            simp only [executeStatement] at h
            exact presF_to_pres (presF_signalCheck h)
      -- runList
      · intro env l s c s' h
        cases l with
        | nil =>
            simp only [runList] at h
            obtain ⟨rfl, rfl⟩ := h
            exact pres_refl s
        | cons x xs =>
            simp only [runList] at h
            split at h
            · simp at h
            · simp at h
            · rename_i s₁ heq
              exact pres_trans (ihStmt env x s _ s₁ heq)
                (ihRun env xs s₁ c s' h)
            · rename_i c₁ s₁ hne heq
              cases h
              exact ihStmt env x s _ _ heq
      -- executeStatements
      · intro env l s c s' h
        simp only [executeStatements] at h
        split at h
        · simp at h
        · simp at h
        · rename_i c₁ s₁ heq
          cases h
          exact presF_scope (ihRun env l (newScope false s) _ _ heq)
      -- executeWhile
      · intro env p body s c s' h
        simp only [executeWhile] at h
        split at h
        · split at h
          · simp at h
          · simp at h
          · rename_i s₁ heq
            cases h
            exact presF_trans (presF_applyPipeline env p s)
              (ihStmts env body _ _ _ heq)
          · rename_i s₁ heq
            cases h
            exact presF_trans (presF_applyPipeline env p s)
              (ihStmts env body _ _ _ heq)
          · rename_i c₁ s₁ hne₁ hne₂ heq
            exact presF_trans
              (presF_trans (presF_applyPipeline env p s)
                (ihStmts env body _ c₁ s₁ heq))
              (ihWhile env p body s₁ c s' h)
        · cases h
          exact presF_applyPipeline env p s
      -- loopIgnore
      · intro env n body s c s' h
        cases n with
        | zero =>
            simp only [loopIgnore] at h
            obtain ⟨rfl, rfl⟩ := h
            exact presF_refl s
        | succ m =>
            simp only [loopIgnore] at h
            split at h
            · simp at h
            · simp at h
            · rename_i s₁ heq
              cases h
              exact ihStmts env body s _ _ heq
            · rename_i s₁ heq
              cases h
              exact ihStmts env body s _ _ heq
            · rename_i c₁ s₁ hne₁ hne₂ heq
              exact presF_trans (ihStmts env body s c₁ s₁ heq)
                (ihIgn env m body s₁ c s' h)
      -- loopBind
      · intro env v vals body s c s' hv h
        cases vals with
        | nil =>
            simp only [loopBind] at h
            obtain ⟨rfl, rfl⟩ := h
            exact pres_refl s
        | cons v₀ vs =>
            simp only [loopBind] at h
            split at h
            · simp at h
            · simp at h
            · rename_i s₁ heq
              cases h
              exact pres_trans (pres_storeSet (Or.inr hv))
                (presF_to_pres (ihStmts env body _ _ _ heq))
            · rename_i s₁ heq
              cases h
              exact pres_trans (pres_storeSet (Or.inr hv))
                (presF_to_pres (ihStmts env body _ _ _ heq))
            · rename_i c₁ s₁ hne₁ hne₂ heq
              exact pres_trans
                (pres_trans (pres_storeSet (Or.inr hv))
                  (presF_to_pres (ihStmts env body _ c₁ s₁ heq)))
                (ihBind env v vs body s₁ c s' hv h)
      -- executeFor
      · intro env v vals body s c s' h
        simp only [executeFor] at h
        split at h <;> split at h
        · exact presF_to_pres (ihIgn env _ body s c s' h)
        · rename_i hv
          exact ihBind env v _ body s c s' hv h
        · exact presF_to_pres (ihIgn env _ body s c s' h)
        · rename_i hv
          exact ihBind env v _ body s c s' hv h
        · exact presF_to_pres (ihIgn env _ body s c s' h)
        · rename_i hv
          exact ihBind env v _ body s c s' hv h
      -- ifChain
      · intro env pairs failure s c s' h
        cases pairs with
        | nil =>
            simp only [ifChain] at h
            exact ihStmts env failure s c s' h
        | cons p rest =>
            obtain ⟨cond, stmts⟩ := p
            simp only [ifChain] at h
            split at h
            · simp at h
            · simp at h
            · rename_i c₁ s₁ heq
              split at h
              · cases h
                exact ihStmts env [cond] s c₁ s' heq
              · split at h
                · exact presF_trans (ihStmts env [cond] s c₁ s₁ heq)
                    (ihStmts env stmts s₁ c s' h)
                · exact presF_trans (ihStmts env [cond] s c₁ s₁ heq)
                    (ihChain env rest failure s₁ c s' h)
      -- executeIf
      · intro env e su ei fa s c s' h
        simp only [executeIf] at h
        exact ihChain env _ fa s c s' h
      -- matchCases
      · intro env cs v a s c s' h
        cases cs with
        | nil =>
            simp only [matchCases] at h
            obtain ⟨rfl, rfl⟩ := h
            exact pres_refl s
        | cons case rest =>
            simp only [matchCases] at h
            split at h
            · exact ihCase env case rest v a s c s' h
            · split at h
              · exact ihCase env case rest v a s c s' h
              · exact ihCases env rest v a s c s' h
      -- caseMatched
      · intro env ca rest v a s c s' h
        simp only [caseMatched] at h
        split at h
        · simp at h
        · simp at h
        · rename_i c₁ s₁ heq
          have hguard : Pres s s₁ :=
            pres_trans (pres_bindStep ca v a s)
              (ihGuard env ca (bindStep ca v a s) c₁ s₁ heq)
          split at h
          · exact pres_trans hguard (ihCases env rest v a s₁ c s' h)
          · split at h
            · simp at h
            · simp at h
            · rename_i c₂ s₂ heq₂
              cases h
              exact pres_trans hguard
                (pres_trans
                  (presF_to_pres (ihStmts env ca.statements s₁ _ _ heq₂))
                  (pres_restoreStep ca (savedBind ca a s) s₂))
      -- guardStep
      · intro env ca s c s' h
        simp only [guardStep] at h
        split at h
        · exact ihCmd env _ s c s' h
        · cases h
          exact pres_refl s
      -- executeMatch
      · intro env e cs s c s' h
        simp only [executeMatch] at h
        exact ihCases env cs _ _ s c s' h
      -- onCmdList
      · intro env l s c s' h
        cases l with
        | nil =>
            simp only [onCmdList] at h
            obtain ⟨rfl, rfl⟩ := h
            exact pres_refl s
        | cons x xs =>
            simp only [onCmdList] at h
            split at h
            · simp at h
            · simp at h
            · rename_i c₁ s₁ heq
              exact pres_trans (ihStmt env x s c₁ s₁ heq)
                (ihCmdL env xs s₁ c s' h)
      -- onCommand
      · intro env cmd s c s' h
        simp only [onCommand] at h
        split at h
        · cases h
          exact pres_of_eq rfl rfl
        · exact pres_trans (pres_of_eq rfl rfl)
            (ihCmdL env _ { s with break_flow := false } c s' h)

/-- Condition of a normal result, for evaluating concrete executions. -/
def Res.cond? : Res → Option Condition
  | .ok c _ => some c
  | _ => none

/-- Previous status of a normal result's state. -/
def Res.status? : Res → Option Int
  | .ok _ s => some s.previous_status
  | _ => none

/-- Scalar value of a name in a normal result's state. -/
def Res.getStrVar (name : String) : Res → Option String
  | .ok _ s => getStr name s.vars
  | _ => none

/-- Most recent standard-output line of a normal result's state. -/
def Res.stdoutHead : Res → Option String
  | .ok _ s => s.stdout.head?
  | _ => none

theorem lookupFrame_setFrame (n : String) (v : VariableType) (fr : Frame) :
    lookupFrame n (setFrame n v fr) = some v := by
  induction fr with
  | nil => simp [setFrame, lookupFrame]
  | cons p rest ih =>
      obtain ⟨m, w⟩ := p
      by_cases hm : m = n
      · simp [setFrame, lookupFrame, hm]
      · simp [setFrame, lookupFrame, hm, ih]

theorem lookupVar_setTop (n : String) (v : VariableType) {l : List Frame}
    (h : l ≠ []) : lookupVar n (setTop n v l) = some v := by
  cases l with
  | nil => exact absurd rfl h
  | cons fr rest => simp [setTop, lookupVar, lookupFrame_setFrame]

/-- A trivial oracle environment: no pending work anywhere, every pipeline
succeeds with status zero, expansion is empty, the clock reads zero. -/
def trivEnv : Env where
  parseCommand := fun _ => some []
  runPipeline := fun _ _ => (some 0, 0)
  localAssign := fun _ _ => 0
  exportAssign := fun _ _ => 0
  expandString := fun _ _ => []
  is_array := fun _ => false
  forExpression := fun vals _ => .Multiple vals
  handleSignal := fun _ => false
  signalCode := fun n => n
  elapsed := fun _ => (0, 0)

/-- A concrete oracle environment for counterexamples: the command "fail"
parses to a statement installing status 1, the command "rebind" parses to a
for loop that rebinds the name b, the subject "subj" and the pattern "pat"
both expand to the array with the single element v, every pipeline succeeds,
and the clock reads exactly sixty seconds. -/
def cEnv : Env where
  parseCommand := fun cmd =>
    if cmd = "fail" then some [.Error 1]
    else if cmd = "rebind" then some [.For "b" ["x"] []]
    else some []
  runPipeline := fun _ _ => (some 0, 0)
  localAssign := fun _ _ => 0
  exportAssign := fun _ _ => 0
  expandString := fun e _ =>
    if e = "subj" then ["v"] else if e = "pat" then ["v"] else []
  is_array := fun _ => false
  forExpression := fun vals _ => .Multiple vals
  handleSignal := fun _ => false
  signalCode := fun n => n
  elapsed := fun _ => (60, 0)

/-- A fresh shell state: status zero, no flags, one empty scope, no pending
signals, empty output and trace. -/
def st0 : ShellState where
  previous_status := 0
  flags := 0
  break_flow := false
  vars := [[]]
  pendingSignals := []
  pipelineCount := 0
  stdout := []
  trace := []

/-- The fresh state with the break-flow latch set, as an external interrupt
leaves it. -/
def stBF : ShellState := { st0 with break_flow := true }

/-- C1 (scope balance): every completed execute_statements call leaves the
count of new_scope events equal to the count of pop_scope events over the
whole trace delta (pushes added equal pops added), and the scope stack is
restored exactly, including when inner statements return Break, Continue or
SigInt; the block itself contributes exactly one pop (and its matching
push). -/
theorem c1_scope_balance (env : Env) (fuel : Nat) (l : List Statement)
    (s : ShellState) (c : Condition) (s' : ShellState)
    (h : executeStatements env fuel l s = .ok c s') :
    evCnt .scopePush s'.trace + evCnt .scopePop s.trace
      = evCnt .scopePop s'.trace + evCnt .scopePush s.trace ∧
    s'.vars = s.vars ∧
    (∃ t, s'.trace = Event.scopePop :: t) := by
  have hm := (master fuel).2.2.1 env l s c s' h
  refine ⟨hm.1, hm.2.2, ?_⟩
  cases fuel with
  | zero => simp [executeStatements] at h
  | succ f =>
      simp only [executeStatements] at h
      split at h
      · simp at h
      · simp at h
      · rename_i c₁ s₁ heq
        cases h
        exact ⟨s₁.trace, rfl⟩

/-- C1 witness: a block whose only statement breaks out still pushes and
pops exactly one scope. -/
theorem c1_scope_balance_witness :
    evCnt .scopePush ({ st0 with trace := [Event.scopePop, Event.scopePush] } : ShellState).trace
        + evCnt .scopePop st0.trace
      = evCnt .scopePop ({ st0 with trace := [Event.scopePop, Event.scopePush] } : ShellState).trace
        + evCnt .scopePush st0.trace ∧
    ({ st0 with trace := [Event.scopePop, Event.scopePush] } : ShellState).vars = st0.vars ∧
    (∃ t, ({ st0 with trace := [Event.scopePop, Event.scopePush] } : ShellState).trace
        = Event.scopePop :: t) :=
  c1_scope_balance trivEnv 3 [.Break] st0 .Break
    { st0 with trace := [Event.scopePop, Event.scopePush] } rfl

/-- C2 counterexample: the claim fails at the child of Not.  With the
break-flow latch set and no pending signal, executing Error 0 alone returns
SigInt (the inner execution), but executing Not (Error 0) from the same
state returns NoOp: the Not arm discards its child's condition and the
child's probe has already consumed the latch. -/
theorem c2_counterexample :
    Res.cond? (executeStatement trivEnv 1 (.Error 0) stBF) = some .SigInt ∧
    Res.cond? (executeStatement trivEnv 2 (.Not (.Error 0)) stBF) = some .NoOp :=
  ⟨rfl, rfl⟩

/-- C2 (amended): SigInt propagates monotonically through every compound
construct except the child of Not, whose condition the source discards: a
statement returning SigInt makes its block return SigInt immediately (the
remaining siblings never run and the returned state is the interrupted
one), a body returning SigInt ends a while loop or either for-loop shape at
once, and the While, For, If, Match, And, Or and Time arms of
execute_statement all forward a SigInt from their sub-executor. -/
theorem c2_sigint_propagation (env : Env) (f : Nat) :
    (∀ x xs s s₁, executeStatement env f x (newScope false s) = .ok .SigInt s₁ →
        executeStatements env (f + 2) (x :: xs) s = .ok .SigInt (popScope s₁)) ∧
    (∀ p body s s₁, (applyPipeline env p s).1 = some SUCCESS →
        executeStatements env f body (applyPipeline env p s).2 = .ok .SigInt s₁ →
        executeWhile env (f + 1) p body s = .ok .SigInt s₁) ∧
    (∀ v v₀ vs body s s₁,
        executeStatements env f body (storeSet .forLoop v (.str v₀) s) = .ok .SigInt s₁ →
        loopBind env (f + 1) v (v₀ :: vs) body s = .ok .SigInt s₁) ∧
    (∀ m body s s₁, executeStatements env f body s = .ok .SigInt s₁ →
        loopIgnore env (f + 1) (m + 1) body s = .ok .SigInt s₁) ∧
    (∀ e l s s₁, executeWhile env f e l s = .ok .SigInt s₁ →
        executeStatement env (f + 1) (.While e l) s = .ok .SigInt s₁) ∧
    (∀ v vals l s s₁, executeFor env f v vals l s = .ok .SigInt s₁ →
        executeStatement env (f + 1) (.For v vals l) s = .ok .SigInt s₁) ∧
    (∀ e su ei fa s s₁, executeIf env f e su ei fa s = .ok .SigInt s₁ →
        executeStatement env (f + 1) (.If e su ei fa) s = .ok .SigInt s₁) ∧
    (∀ e cs s s₁, executeMatch env f e cs s = .ok .SigInt s₁ →
        executeStatement env (f + 1) (.Match e cs) s = .ok .SigInt s₁) ∧
    (∀ inner s s₁, s.previous_status = SUCCESS →
        executeStatement env f inner s = .ok .SigInt s₁ →
        executeStatement env (f + 1) (.And inner) s = .ok .SigInt s₁) ∧
    (∀ inner s s₁, s.previous_status = FAILURE →
        executeStatement env f inner s = .ok .SigInt s₁ →
        executeStatement env (f + 1) (.Or inner) s = .ok .SigInt s₁) ∧
    (∀ inner s s₁, executeStatement env f inner s = .ok .SigInt s₁ →
        executeStatement env (f + 1) (.Time inner) s = .ok .SigInt
          { s₁ with stdout :=
              timeFormat (env.elapsed s₁).1 (env.elapsed s₁).2 :: s₁.stdout }) := by
  refine ⟨?_, ?_, ?_, ?_, ?_, ?_, ?_, ?_, ?_, ?_, ?_⟩
  · intro x xs s s₁ h
    simp [executeStatements, runList, h]
  · intro p body s s₁ hp h
    simp [executeWhile, hp, h]
  · intro v v₀ vs body s s₁ h
    simp [loopBind, h]
  · intro m body s s₁ h
    simp [loopIgnore, h]
  · intro e l s s₁ h
    simp [executeStatement, sigTail, h]
  · intro v vals l s s₁ h
    simp [executeStatement, sigTail, h]
  · intro e su ei fa s s₁ h
    simp [executeStatement, condTail, h]
  · intro e cs s s₁ h
    simp [executeStatement, condTail, h]
  · intro inner s s₁ hs h
    simp [executeStatement, condTail, hs, h]
  · intro inner s s₁ hs h
    simp [executeStatement, condTail, hs, h]
  · intro inner s s₁ h
    simp [executeStatement, condTail, h]

/-- C2 witness: a block whose first statement is interrupted by the
break-flow latch returns SigInt without running its sibling. -/
theorem c2_sigint_propagation_witness :
    executeStatements trivEnv 3 [.Error 0, .Error 7] stBF =
      .ok .SigInt
        (popScope { st0 with vars := [] :: st0.vars, trace := [Event.scopePush] }) :=
  (c2_sigint_propagation trivEnv 1).1 (.Error 0) [.Error 7] stBF
    { st0 with vars := [] :: st0.vars, trace := [Event.scopePush] } rfl

theorem getStr_setTop (n : String) (x : String) {l : List Frame}
    (h : l ≠ []) : getStr n (setTop n (.str x) l) = some x := by
  simp [getStr, lookupVar_setTop n (.str x) h]

/-- C5 (Not semantics): executing Not inner executes inner and then maps a
previous status of 0 to 1 and of 1 to 0, leaves every other status
unchanged, and afterwards the variable named by a question mark holds the
new status rendered as a decimal string. -/
theorem c5_not_semantics (env : Env) (f : Nat) (inner : Statement)
    (s : ShellState) (c₁ : Condition) (s₁ : ShellState) (c₂ : Condition)
    (s₂ : ShellState) (hne : s.vars ≠ [])
    (hchild : executeStatement env f inner s = .ok c₁ s₁)
    (hfull : executeStatement env (f + 1) (.Not inner) s = .ok c₂ s₂) :
    (s₁.previous_status = 0 → s₂.previous_status = 1) ∧
    (s₁.previous_status = 1 → s₂.previous_status = 0) ∧
    (s₁.previous_status ≠ 0 → s₁.previous_status ≠ 1 →
      s₂.previous_status = s₁.previous_status) ∧
    getStr "?" s₂.vars = some (toString s₂.previous_status) := by
  have hlen : s₁.vars.length = s.vars.length :=
    ((master f).1 env inner s c₁ s₁ hchild).2.2.1
  have hne₁ : s₁.vars ≠ [] := by
    intro hnil
    rw [hnil] at hlen
    exact hne (List.eq_nil_of_length_eq_zero hlen.symm)
  simp only [executeStatement] at hfull
  split at hfull
  · rw [hchild] at *
    rename_i heq
    simp at heq
  · rw [hchild] at *
    rename_i heq
    simp at heq
  · rename_i cond s₁' heq
    rw [hchild] at heq
    cases heq
    obtain ⟨ht, hv, hst, _⟩ := signalCheck_ok hfull
    simp only [storeSet] at hv hst
    refine ⟨?_, ?_, ?_, ?_⟩
    · intro h0
      simp [hst, SUCCESS, FAILURE, h0]
    · intro h1
      simp [hst, SUCCESS, FAILURE, h1]
    · intro h0 h1
      simp [hst, SUCCESS, FAILURE, h0, h1]
    · rw [hv, hst]
      exact getStr_setTop "?" _ hne₁

/-- C5 witness: Not over a statement that installs status 1 ends with
status 0 and the question-mark variable holding the string 0. -/
theorem c5_not_semantics_witness :
    (({ st0 with previous_status := 1 } : ShellState).previous_status = 0 →
      (storeSet .statusVar "?" (.str "0") st0).previous_status = 1) ∧
    (({ st0 with previous_status := 1 } : ShellState).previous_status = 1 →
      (storeSet .statusVar "?" (.str "0") st0).previous_status = 0) ∧
    (({ st0 with previous_status := 1 } : ShellState).previous_status ≠ 0 →
      ({ st0 with previous_status := 1 } : ShellState).previous_status ≠ 1 →
      (storeSet .statusVar "?" (.str "0") st0).previous_status
        = ({ st0 with previous_status := 1 } : ShellState).previous_status) ∧
    getStr "?" (storeSet .statusVar "?" (.str "0") st0).vars
      = some (toString (storeSet .statusVar "?" (.str "0") st0).previous_status) :=
  c5_not_semantics trivEnv 1 (.Error 1) st0 .NoOp
    { st0 with previous_status := 1 } .NoOp
    (storeSet .statusVar "?" (.str "0") st0) (by simp [st0]) rfl rfl

/-- C6 (Or semantics): the Or arm executes its child exactly when the
previous status equals 1; for every other status the child is not executed
and, apart from the signal probe's consumption of the signal queue and the
break-flow latch, the state (variables, trace, status, output, pipeline
count) is unchanged.  When the status is 1 the result is exactly the
child's execution fed through the source's condition dispatch. -/
theorem c6_or_semantics (env : Env) (f : Nat) (inner : Statement)
    (s : ShellState) :
    (s.previous_status ≠ 1 →
      executeStatement env (f + 1) (.Or inner) s = signalCheck env s ∧
      ∀ c s', executeStatement env (f + 1) (.Or inner) s = .ok c s' →
        s'.vars = s.vars ∧ s'.trace = s.trace ∧
        s'.previous_status = s.previous_status ∧ s'.stdout = s.stdout ∧
        s'.pipelineCount = s.pipelineCount) ∧
    (s.previous_status = 1 →
      executeStatement env (f + 1) (.Or inner) s =
        condTail env (executeStatement env f inner s)) := by
  constructor
  · intro hs
    have he : executeStatement env (f + 1) (.Or inner) s = signalCheck env s := by
      simp [executeStatement, condTail, FAILURE, hs]
    refine ⟨he, ?_⟩
    intro c s' h
    rw [he] at h
    obtain ⟨h1, h2, h3, h4, h5⟩ := signalCheck_ok h
    exact ⟨h2, h1, h3, h4, h5⟩
  · intro hs
    simp [executeStatement, FAILURE, hs]

/-- C6 witness: with status 0 the Or arm reduces to the bare signal probe;
with status 1 it reduces to the dispatched child execution. -/
theorem c6_or_semantics_witness :
    (executeStatement trivEnv 2 (.Or (.Error 7)) st0 = signalCheck trivEnv st0) ∧
    (executeStatement trivEnv 2 (.Or (.Error 7)) { st0 with previous_status := 1 }
      = condTail trivEnv
          (executeStatement trivEnv 1 (.Error 7) { st0 with previous_status := 1 })) :=
  ⟨((c6_or_semantics trivEnv 1 (.Error 7) st0).1 (by decide)).1,
   (c6_or_semantics trivEnv 1 (.Error 7) { st0 with previous_status := 1 }).2 rfl⟩

/-- C7 counterexample: at an elapsed time of exactly 60 seconds the source
takes the plain-seconds branch (its test is strictly greater than 60), so
the emitted line is not the minutes form the claim requires. -/
theorem c7_counterexample :
    Res.stdoutHead (executeStatement cEnv 2 (.Time .other) st0)
      = some "real    60.000000000s" ∧
    "real    60.000000000s" ≠ "real    1m00.000000000s" :=
  ⟨rfl, by decide⟩

/-- C7 (amended): after executing the inner statement, the Time arm writes
exactly one line to standard output; the line uses the minutes form
real MmSS.NNNNNNNNNs (no space after the minute marker) when the elapsed
seconds are strictly greater than 60, and the plain form real S.NNNNNNNNNs
otherwise, including at exactly 60 seconds. -/
theorem c7_time_format (env : Env) (f : Nat) (inner : Statement)
    (s : ShellState) (c₁ : Condition) (s₁ : ShellState) (c₂ : Condition)
    (s₂ : ShellState)
    (hchild : executeStatement env f inner s = .ok c₁ s₁)
    (hfull : executeStatement env (f + 1) (.Time inner) s = .ok c₂ s₂) :
    s₂.stdout = timeFormat (env.elapsed s₁).1 (env.elapsed s₁).2 :: s₁.stdout ∧
    (∀ sec ns, 60 < sec →
      timeFormat sec ns = "real    " ++ toString (sec / 60) ++ "m"
        ++ zeroPad 2 (sec % 60) ++ "." ++ zeroPad 9 ns ++ "s") ∧
    (∀ sec ns, sec ≤ 60 →
      timeFormat sec ns = "real    " ++ toString sec ++ "." ++ zeroPad 9 ns ++ "s") := by
  simp only [executeStatement] at hfull
  split at hfull
  · rw [hchild] at *
    rename_i heq
    simp at heq
  · rw [hchild] at *
    rename_i heq
    simp at heq
  · rename_i cond s₁' heq
    rw [hchild] at heq
    cases heq
    have hstd : s₂.stdout
        = timeFormat (env.elapsed s₁).1 (env.elapsed s₁).2 :: s₁.stdout := by
      cases c₁ <;> simp [condTail] at hfull
      · exact hfull.2 ▸ rfl
      · exact hfull.2 ▸ rfl
      · exact (signalCheck_ok hfull).2.2.2.1
      · exact hfull.2 ▸ rfl
    refine ⟨hstd, ?_, ?_⟩
    · intro sec ns hgt
      simp [timeFormat, hgt]
    · intro sec ns hle
      simp [timeFormat, Nat.not_lt.mpr hle]

/-- C7 witness: the Time arm writes the measured line once, 61 seconds use
the minutes form and 60 seconds the plain form. -/
theorem c7_time_format_witness :
    ({ st0 with stdout := [timeFormat 60 0] } : ShellState).stdout
        = timeFormat (cEnv.elapsed st0).1 (cEnv.elapsed st0).2 :: st0.stdout ∧
    timeFormat 61 5 = "real    " ++ toString (61 / 60) ++ "m"
        ++ zeroPad 2 (61 % 60) ++ "." ++ zeroPad 9 5 ++ "s" ∧
    timeFormat 60 5 = "real    " ++ toString 60 ++ "." ++ zeroPad 9 5 ++ "s" :=
  ⟨(c7_time_format cEnv 1 .other st0 .NoOp st0 .NoOp
      { st0 with stdout := [timeFormat 60 0] } rfl rfl).1,
   (c7_time_format cEnv 1 .other st0 .NoOp st0 .NoOp
      { st0 with stdout := [timeFormat 60 0] } rfl rfl).2.1 61 5 (by decide),
   (c7_time_format cEnv 1 .other st0 .NoOp st0 .NoOp
      { st0 with stdout := [timeFormat 60 0] } rfl rfl).2.2 60 5 (by decide)⟩

/-- An environment whose pipeline runner reports a plain failure. -/
def failEnv : Env :=
  { trivEnv with runPipeline := fun _ _ => (some 1, 1) }

/-- C8 (while semantics): execute_while runs the condition pipeline; when
the run result is not success it stops at once with NoOp (natural
completion), and while it is success the body runs: a Break ends the loop
with NoOp, a SigInt returns SigInt, and Continue or NoOp proceed to the
next iteration from the body's final state. -/
theorem c8_while_semantics (env : Env) (f : Nat) (p : Pipeline)
    (body : List Statement) (s : ShellState) :
    ((applyPipeline env p s).1 ≠ some SUCCESS →
      executeWhile env (f + 1) p body s = .ok .NoOp (applyPipeline env p s).2) ∧
    ((applyPipeline env p s).1 = some SUCCESS →
      ∀ c₁ s₁, executeStatements env f body (applyPipeline env p s).2 = .ok c₁ s₁ →
        (c₁ = .Break → executeWhile env (f + 1) p body s = .ok .NoOp s₁) ∧
        (c₁ = .SigInt → executeWhile env (f + 1) p body s = .ok .SigInt s₁) ∧
        (c₁ = .Continue ∨ c₁ = .NoOp →
          executeWhile env (f + 1) p body s = executeWhile env f p body s₁)) := by
  constructor
  · intro hp
    simp [executeWhile, hp]
  · intro hp c₁ s₁ h
    refine ⟨?_, ?_, ?_⟩
    · rintro rfl
      simp [executeWhile, hp, h]
    · rintro rfl
      simp [executeWhile, hp, h]
    · rintro (rfl | rfl) <;> simp [executeWhile, hp, h]

/-- The state after one successful pipeline run and one broken-out body. -/
def stW8 : ShellState :=
  { st0 with
    pipelineCount := 1
    trace := [Event.scopePop, Event.scopePush] }

/-- C8 witness: a failing condition pipeline ends the loop with NoOp, and a
body that breaks ends a succeeding loop with NoOp. -/
theorem c8_while_semantics_witness :
    executeWhile failEnv 1 ⟨0⟩ [] st0 = .ok .NoOp (applyPipeline failEnv ⟨0⟩ st0).2 ∧
    executeWhile trivEnv 4 ⟨0⟩ [.Break] st0 = .ok .NoOp stW8 :=
  ⟨(c8_while_semantics failEnv 0 ⟨0⟩ [] st0).1 (by decide),
   ((c8_while_semantics trivEnv 3 ⟨0⟩ [.Break] st0).2 rfl .Break stW8 rfl).1 rfl⟩

theorem restoreStep_none (ca : Case) (s : ShellState) :
    restoreStep ca none s = s := by
  rcases ca with ⟨val, b, cond, stmts⟩
  rcases b with _ | bind <;> rfl

/-- The failing-guard case of C3: a case whose pattern matches the subject
but whose guard fails. -/
def c3failcase : Case := .mk (some "pat") none (some "fail") []

/-- The default case of C3, with an observable body. -/
def c3defcase : Case := .mk none none none [.Error 42]

/-- C3 counterexample: the first case's pattern matches the subject, yet
because its guard fails the default case still runs its body (the status
becomes 42), refuting that a default case runs only when no preceding case
matched the subject. -/
theorem c3_counterexample :
    matchesArr (cEnv.expandString "pat" st0) (cEnv.expandString "subj" st0) = true ∧
    Res.status? (executeMatch cEnv 9 "subj" [c3failcase, c3defcase] st0) = some 42 :=
  ⟨rfl, rfl⟩

/-- C3 (amended): the case loop is first-hit with guards taken into
account: a case that fires (absent patterns, or a pattern overlapping the
subject, and a guard that does not fail) makes the remaining cases
irrelevant, so at most one case body runs; a case whose pattern does not
overlap the subject is skipped with the state unchanged; a case that
matched but whose guard failed is skipped (its binding not restored) and
the loop continues with the guard's state, so a later default case can
still run after a case that matched the subject. -/
theorem c3_first_hit (env : Env) (f : Nat) (ca : Case) (rest : List Case)
    (v : List String) (a : Bool) (s : ShellState) :
    (∀ c₁ s₁,
      (ca.value = none ∨
        ∃ p, ca.value = some p ∧ matchesArr (env.expandString p s) v = true) →
      guardStep env f ca (bindStep ca v a s) = .ok c₁ s₁ →
      ¬(ca.conditional.isSome ∧ s₁.previous_status ≠ SUCCESS) →
      matchCases env (f + 2) (ca :: rest) v a s
        = matchCases env (f + 2) [ca] v a s) ∧
    (∀ p, ca.value = some p → matchesArr (env.expandString p s) v = false →
      matchCases env (f + 2) (ca :: rest) v a s
        = matchCases env (f + 1) rest v a s) ∧
    (∀ c₁ s₁,
      (ca.value = none ∨
        ∃ p, ca.value = some p ∧ matchesArr (env.expandString p s) v = true) →
      guardStep env f ca (bindStep ca v a s) = .ok c₁ s₁ →
      ca.conditional.isSome ∧ s₁.previous_status ≠ SUCCESS →
      matchCases env (f + 2) (ca :: rest) v a s
        = matchCases env f rest v a s₁) := by
  refine ⟨?_, ?_, ?_⟩
  · intro c₁ s₁ hfire hg hpass
    rcases hfire with hnone | ⟨p, hp, hm⟩
    · simp [matchCases, caseMatched, hnone, hg, hpass]
    · simp [matchCases, caseMatched, hp, hm, hg, hpass]
  · intro p hp hm
    simp [matchCases, hp, hm]
  · intro c₁ s₁ hfire hg hfail
    rcases hfire with hnone | ⟨p, hp, hm⟩
    · simp [matchCases, caseMatched, hnone, hg, hfail]
    · simp [matchCases, caseMatched, hp, hm, hg, hfail]

/-- C3 witness: with a guardless default case at the head, any trailing
cases are irrelevant to the execution. -/
theorem c3_first_hit_witness :
    matchCases cEnv 3 [.mk none none none [.Error 42], .mk none none none [.Error 7]]
        ["v"] false st0
      = matchCases cEnv 3 [.mk none none none [.Error 42]] ["v"] false st0 :=
  (c3_first_hit cEnv 1 (.mk none none none [.Error 42])
      [.mk none none none [.Error 7]] ["v"] false st0).1 .NoOp
    (bindStep (.mk none none none [.Error 42]) ["v"] false st0)
    (Or.inl rfl) rfl (by simp [Case.conditional])

/-- The guarded binding case of C4. -/
def c4failcase : Case := .mk (some "pat") (some "b") (some "fail") []

/-- A state in which the name b holds the scalar old. -/
def st4 : ShellState := { st0 with vars := [[("b", VariableType.str "old")]] }

/-- C4 counterexample: the case binds b to the subject v, its guard fails,
no later case restores anything, so after execute_match the name b holds v
instead of its previous value old. -/
theorem c4_counterexample :
    getStr "b" st4.vars = some "old" ∧
    Res.getStrVar "b" (executeMatch cEnv 9 "subj" [c4failcase] st4) = some "v" ∧
    ("v" : String) ≠ "old" :=
  ⟨rfl, rfl, by decide⟩

/-- C4 (amended): the previous value of a binding name is restored exactly
(same value and type) when the case that bound it completes its body: the
restore runs after the selected case's body, overwriting whatever the guard
or body left.  When a case's guard fails after binding, no restore happens
before the loop continues (the counterexample), so restoration is only
guaranteed for the case that actually runs to completion. -/
theorem c4_binding_restore (env : Env) (f : Nat) (ca : Case)
    (rest : List Case) (v : List String) (a : Bool) (s : ShellState)
    (bind : String) (pv : VariableType) (c₁ : Condition) (s₁ : ShellState)
    (c₂ : Condition) (s₂ : ShellState)
    (hb : ca.binding = some bind)
    (hfire : ca.value = none ∨
      ∃ p, ca.value = some p ∧ matchesArr (env.expandString p s) v = true)
    (hsave : savedBind ca a s = some pv)
    (hg : guardStep env f ca (bindStep ca v a s) = .ok c₁ s₁)
    (hpass : ¬(ca.conditional.isSome ∧ s₁.previous_status ≠ SUCCESS))
    (hbody : executeStatements env f ca.statements s₁ = .ok c₂ s₂)
    (hne : s.vars ≠ [])
    (hpv : (∃ x, pv = VariableType.str x) ∨ ∃ x, pv = VariableType.array x) :
    matchCases env (f + 2) (ca :: rest) v a s
      = .ok c₂ (restoreStep ca (some pv) s₂) ∧
    lookupVar bind (restoreStep ca (some pv) s₂).vars = some pv := by
  have heqn : matchCases env (f + 2) (ca :: rest) v a s
      = .ok c₂ (restoreStep ca (some pv) s₂) := by
    rcases hfire with hnone | ⟨p, hp, hm⟩
    · simp [matchCases, caseMatched, hnone, hg, hpass, hbody, hsave]
    · simp [matchCases, caseMatched, hp, hm, hg, hpass, hbody, hsave]
  have hg' : Pres (bindStep ca v a s) s₁ :=
    (master f).2.2.2.2.2.2.2.2.2.2.2.1 env ca (bindStep ca v a s) c₁ s₁ hg
  have hb' : Pres s (bindStep ca v a s) := pres_bindStep ca v a s
  have hbv : s₂.vars = s₁.vars :=
    ((master f).2.2.1 env ca.statements s₁ c₂ s₂ hbody).2.2
  have hlen : s₂.vars.length = s.vars.length := by
    rw [hbv]
    rw [hg'.2.2.1, hb'.2.2.1]
  have hne₂ : s₂.vars ≠ [] := by
    intro hnil
    rw [hnil] at hlen
    exact hne (List.eq_nil_of_length_eq_zero hlen.symm)
  refine ⟨heqn, ?_⟩
  rcases hpv with ⟨x, rfl⟩ | ⟨x, rfl⟩ <;>
    simp [restoreStep, hb, storeSet, lookupVar_setTop _ _ hne₂]

/-- The guardless binding case used by the C4 witness. -/
def c4wcase : Case := .mk none (some "b") none []

/-- The state after the C4 witness binds b to the subject. -/
def st4b : ShellState := storeSet .matchBind "b" (.str "v") st4

/-- The state after the C4 witness's empty body has run. -/
def st4c : ShellState :=
  { st4b with trace := Event.scopePop :: Event.scopePush :: st4b.trace }

/-- C4 witness: a guardless case with binding b and previous value old
restores old (value and type) after its body completes. -/
theorem c4_binding_restore_witness :
    matchCases cEnv 4 [c4wcase] ["v"] false st4
      = .ok .NoOp (restoreStep c4wcase (some (VariableType.str "old")) st4c) ∧
    lookupVar "b" (restoreStep c4wcase (some (VariableType.str "old")) st4c).vars
      = some (VariableType.str "old") :=
  c4_binding_restore cEnv 2 c4wcase [] ["v"] false st4 "b"
    (VariableType.str "old") .NoOp st4b .NoOp st4c rfl (Or.inl rfl) rfl rfl
    (by simp [c4wcase, Case.conditional]) rfl (by simp [st4, st0])
    (Or.inl ⟨"old", rfl⟩)

/-- The rebinding-guard case of C10. -/
def c10case : Case := .mk none (some "b") (some "rebind") []

/-- C10 counterexample: the selected case binds b (previously unbound) to
the subject v, but its passing guard is a command that rebinds b to x at
the same scope, and since there was no previous value nothing is restored:
after execute_match the name b holds x, not the subject. -/
theorem c10_counterexample :
    getStr "b" st0.vars = none ∧
    " ".intercalate (cEnv.expandString "subj" st0) = "v" ∧
    Res.getStrVar "b" (executeMatch cEnv 15 "subj" [c10case] st0) = some "x" ∧
    ("x" : String) ≠ "v" :=
  ⟨rfl, rfl, rfl, by decide⟩

/-- C10 (amended): when the selected case has a binding whose name had no
previous value of the relevant type, the restore step does nothing, so
after the case completes the name still holds what the binding installed:
the subject (arrays as arrays, otherwise space-joined) - provided the
guard, which runs as an arbitrary fresh command after the binding, does not
itself rebind the name (the counterexample shows a rebinding guard breaks
this); in particular the name is never unset. -/
theorem c10_binding_persists (env : Env) (f : Nat) (ca : Case)
    (rest : List Case) (v : List String) (a : Bool) (s : ShellState)
    (bind : String) (c₁ : Condition) (s₁ : ShellState) (c₂ : Condition)
    (s₂ : ShellState)
    (hb : ca.binding = some bind)
    (hfire : ca.value = none ∨
      ∃ p, ca.value = some p ∧ matchesArr (env.expandString p s) v = true)
    (hsave : savedBind ca a s = none)
    (hg : guardStep env f ca (bindStep ca v a s) = .ok c₁ s₁)
    (hgpres : lookupVar bind s₁.vars = lookupVar bind (bindStep ca v a s).vars)
    (hpass : ¬(ca.conditional.isSome ∧ s₁.previous_status ≠ SUCCESS))
    (hbody : executeStatements env f ca.statements s₁ = .ok c₂ s₂)
    (hne : s.vars ≠ []) :
    matchCases env (f + 2) (ca :: rest) v a s = .ok c₂ s₂ ∧
    lookupVar bind s₂.vars = some
      (if a then VariableType.array v
       else VariableType.str (" ".intercalate v)) := by
  have heqn : matchCases env (f + 2) (ca :: rest) v a s = .ok c₂ s₂ := by
    rcases hfire with hnone | ⟨p, hp, hm⟩
    · simp [matchCases, caseMatched, hnone, hg, hpass, hbody, hsave,
        restoreStep_none]
    · simp [matchCases, caseMatched, hp, hm, hg, hpass, hbody, hsave,
        restoreStep_none]
  have hbv : s₂.vars = s₁.vars :=
    ((master f).2.2.1 env ca.statements s₁ c₂ s₂ hbody).2.2
  refine ⟨heqn, ?_⟩
  rw [hbv, hgpres]
  cases a <;> simp [bindStep, hb, storeSet, lookupVar_setTop _ _ hne]

/-- The guardless binding case used by the C10 witness. -/
def c10wcase : Case := .mk none (some "b") none []

/-- The state after the C10 witness binds b to the subject. -/
def st10b : ShellState := storeSet .matchBind "b" (.str "v") st0

/-- The state after the C10 witness's empty body has run. -/
def st10c : ShellState :=
  { st10b with trace := Event.scopePop :: Event.scopePush :: st10b.trace }

/-- C10 witness: a guardless case binding a previously unbound name leaves
it bound to the space-joined subject after the case completes. -/
theorem c10_binding_persists_witness :
    matchCases cEnv 4 [c10wcase] ["v"] false st0 = .ok .NoOp st10c ∧
    lookupVar "b" st10c.vars = some
      (if false then VariableType.array ["v"]
       else VariableType.str (" ".intercalate ["v"])) :=
  c10_binding_persists cEnv 2 c10wcase [] ["v"] false st0 "b" .NoOp st10b
    .NoOp st10c rfl (Or.inl rfl) rfl rfl rfl
    (by simp [c10wcase, Case.conditional]) rfl (by simp [st0])

/-- The state left by a block whose only statement is Error 0: status zero
and one more push-pop pair on the trace. -/
def errState (s : ShellState) : ShellState :=
  { s with
    previous_status := 0
    trace := Event.scopePop :: Event.scopePush :: s.trace }

/-- Running a block whose only statement is Error 0 from a state with no
pending signal and a clear break-flow latch: the status becomes 0 and the
trace gains exactly one push-pop pair. -/
theorem errBlock (env : Env) (u : Nat) (s : ShellState)
    (h1 : s.pendingSignals = []) (h2 : s.break_flow = false) :
    executeStatements env (u + 3) [.Error 0] s = .ok .NoOp (errState s) := by
  simp [executeStatements, runList, executeStatement, signalCheck, newScope,
    popScope, errState, h1, h2]

/-- Iterating the ignore-variable loop n times over the Error 0 body runs
the block exactly once per element: the trace gains exactly n scope pushes
and the store is untouched. -/
theorem errLoop (env : Env) :
    ∀ (n f : Nat) (s : ShellState), s.pendingSignals = [] → s.break_flow = false →
    ∃ s', loopIgnore env (f + n + 4) n [.Error 0] s = .ok .NoOp s' ∧
      evCnt .scopePush s'.trace = n + evCnt .scopePush s.trace ∧
      s'.vars = s.vars := by
  intro n
  induction n with
  | zero =>
      intro f s h1 h2
      refine ⟨s, ?_, by omega, rfl⟩
      simp [loopIgnore]
  | succ m ih =>
      intro f s h1 h2
      obtain ⟨s', hrun, hcnt, hv⟩ := ih f (errState s) h1 h2
      refine ⟨s', ?_, ?_, hv⟩
      · have hstep : loopIgnore env ((f + (m + 1) + 3) + 1) (m + 1) [.Error 0] s
            = loopIgnore env (f + (m + 1) + 3) m [.Error 0] (errState s) := by
          simp [loopIgnore, errBlock env (f + (m + 1)) s h1 h2]
        exact hstep.trans hrun
      · rw [hcnt]
        simp only [errState, evCnt_cons]
        simp
        omega

/-- C9 (for-underscore non-binding): a for loop whose variable is the
underscore never performs the loop's element-binding store write of the
name underscore (no such ghost event is ever added) and leaves the variable
store exactly as it was, for every ForExpression shape and any body; and
the body still executes once per element: with the one-statement body
Error 0 the trace gains exactly one scope push per element of the Multiple
list, per line of the Normal string, and per integer of the Range. -/
theorem c9_for_underscore (env : Env) :
    (∀ fuel vals body s c s', executeFor env fuel "_" vals body s = .ok c s' →
      evCnt underEvent s'.trace = evCnt underEvent s.trace ∧ s'.vars = s.vars) ∧
    (∀ f vals vs s, env.forExpression vals s = .Multiple vs →
      s.pendingSignals = [] → s.break_flow = false →
      ∃ s', executeFor env (f + vs.length + 5) "_" vals [.Error 0] s = .ok .NoOp s' ∧
        evCnt .scopePush s'.trace = vs.length + evCnt .scopePush s.trace) ∧
    (∀ f vals str s, env.forExpression vals s = .Normal str →
      s.pendingSignals = [] → s.break_flow = false →
      ∃ s', executeFor env (f + (rustLines str).length + 5) "_" vals [.Error 0] s
          = .ok .NoOp s' ∧
        evCnt .scopePush s'.trace
          = (rustLines str).length + evCnt .scopePush s.trace) ∧
    (∀ f vals a b s, env.forExpression vals s = .Range a b →
      s.pendingSignals = [] → s.break_flow = false →
      ∃ s', executeFor env (f + (rangeList a b).length + 5) "_" vals [.Error 0] s
          = .ok .NoOp s' ∧
        evCnt .scopePush s'.trace
          = (rangeList a b).length + evCnt .scopePush s.trace) := by
  refine ⟨?_, ?_, ?_, ?_⟩
  · intro fuel vals body s c s' h
    cases fuel with
    | zero => simp [executeFor] at h
    | succ f =>
        simp only [executeFor] at h
        split at h <;> simp only [if_true] at h <;>
          exact And.intro ((master f).2.2.2.2.1 env _ body s c s' h).2.1
            ((master f).2.2.2.2.1 env _ body s c s' h).2.2
  · intro f vals vs s hfe h1 h2
    obtain ⟨s', hrun, hcnt, hv⟩ := errLoop env vs.length f s h1 h2
    refine ⟨s', ?_, hcnt⟩
    have hstep : executeFor env ((f + vs.length + 4) + 1) "_" vals [.Error 0] s
        = loopIgnore env (f + vs.length + 4) vs.length [.Error 0] s := by
      simp [executeFor, hfe]
    exact hstep.trans hrun
  · intro f vals str s hfe h1 h2
    obtain ⟨s', hrun, hcnt, hv⟩ := errLoop env (rustLines str).length f s h1 h2
    refine ⟨s', ?_, hcnt⟩
    have hstep : executeFor env ((f + (rustLines str).length + 4) + 1) "_" vals
          [.Error 0] s
        = loopIgnore env (f + (rustLines str).length + 4) (rustLines str).length
            [.Error 0] s := by
      simp [executeFor, hfe]
    exact hstep.trans hrun
  · intro f vals a b s hfe h1 h2
    obtain ⟨s', hrun, hcnt, hv⟩ := errLoop env (rangeList a b).length f s h1 h2
    refine ⟨s', ?_, hcnt⟩
    have hstep : executeFor env ((f + (rangeList a b).length + 4) + 1) "_" vals
          [.Error 0] s
        = loopIgnore env (f + (rangeList a b).length + 4) (rangeList a b).length
            [.Error 0] s := by
      simp [executeFor, hfe]
    exact hstep.trans hrun

/-- The state after the C9 witness loop has run its body twice. -/
def stW9 : ShellState :=
  { st0 with trace := [Event.scopePop, Event.scopePush,
                       Event.scopePop, Event.scopePush] }

/-- C9 witness: a two-element underscore loop adds no underscore binding
event, leaves the store unchanged, and pushes exactly two scopes. -/
theorem c9_for_underscore_witness :
    (evCnt underEvent stW9.trace = evCnt underEvent st0.trace ∧
      stW9.vars = st0.vars) ∧
    ∃ s', executeFor cEnv (0 + 2 + 5) "_" ["a", "b"] [.Error 0] st0
        = .ok .NoOp s' ∧
      evCnt .scopePush s'.trace = 2 + evCnt .scopePush st0.trace :=
  ⟨(c9_for_underscore cEnv).1 8 ["a", "b"] [.Error 0] st0 .NoOp stW9 rfl,
   (c9_for_underscore cEnv).2.1 0 ["a", "b"] ["a", "b"] st0 rfl rfl rfl⟩
